import Mathlib

/-!
# Verification of the gojekyll site package

Shallow embedding of the routing, exclusion and hook-dispatch logic of the
repository gnpaone/gojekyll, as found in src/site/site.go and in the second
copy of the site package at src/unnamed/part_000.

Modelling conventions:

* Go strings are Lean `String`; URL paths are strings, while site-relative
  file paths handed to `Exclude` are represented by their slash-separated
  component lists (the root path "." is the empty list `[]`), so that the
  walk toward the root (`filepath.Dir`) is the structural step `dropLast`.
* `filepath.Clean` and `filepath.Join` are implemented for slash-separated
  paths, following the Go algorithm (drop empty and "." components, resolve
  ".." against the buffer, keep a leading slash of a rooted path).
* Go maps are association lists; `lookupA` is map lookup and `setKey` is
  map assignment (overwriting an existing key).
* The external collaborators `utils.MatchList` (glob matching of a pattern
  list) and `filepath.Rel` (source-root relativization, which can fail) are
  not part of the embedded code; functions that call them take them as
  explicit parameters (`m : List String → List String → Bool`,
  `rel : Document → Option String`), and the theorems quantify over them.
* A Go function that can panic is embedded with `Except`/`Option` so the
  panic is an explicit outcome.
-/

namespace Gojekyll

/-! ## Path helpers: filepath.Clean and filepath.Join for slash paths -/

/-- Split a character list at every slash, keeping empty pieces. -/
def splitSlash : List Char → List Char → List String
  | [], acc => [String.mk acc.reverse]
  | c :: rest, acc =>
    if c = '/' then String.mk acc.reverse :: splitSlash rest []
    else splitSlash rest (c :: acc)

/-- Nonempty slash-separated components of a path string. -/
def splitPath (p : String) : List String :=
  (splitSlash p.data []).filter (fun c => c ≠ "")

/-- Whether the path string starts with a slash (Go: path[0] == Separator). -/
def isRooted (p : String) : Bool :=
  match p.data with
  | '/' :: _ => true
  | _ => false

/-- Join components with single slashes. -/
def joinComps : List String → String
  | [] => ""
  | [c] => c
  | c :: cs => c ++ "/" ++ joinComps cs

/-- The component loop of Go filepath.Clean: `out` is the output buffer in
reverse order; ".." pops a non-".." buffer entry, is dropped at the root of
a rooted path, and is kept otherwise. -/
def cleanLoop (rooted : Bool) (out : List String) : List String → List String
  | [] => out.reverse
  | c :: rest =>
    if c = ".." then
      match out with
      | o :: os => if o = ".." then cleanLoop rooted (".." :: o :: os) rest
                   else cleanLoop rooted os rest
      | [] => if rooted then cleanLoop rooted [] rest
              else cleanLoop rooted [".."] rest
    else cleanLoop rooted (c :: out) rest

/-- Go filepath.Clean for slash-separated paths. -/
def clean (p : String) : String :=
  if p = "" then "."
  else
    let rooted := isRooted p
    let comps := cleanLoop rooted [] (splitPath p)
    if comps = [] then (if rooted then "/" else ".")
    else (if rooted then "/" else "") ++ joinComps comps

/-- Go filepath.Join of two elements: empty elements are skipped and the
result is cleaned; the join of two empty strings is empty. -/
def joinPath (a b : String) : String :=
  if a = "" ∧ b = "" then ""
  else if a = "" then clean b
  else clean (a ++ "/" ++ b)

/-- Go filepath.Join of a single element (used for the extensionless
fallback, filepath.Join(urlpath + ".html")). -/
def join1 (a : String) : String :=
  if a = "" then "" else clean a

/-! ## Association-list maps -/

/-- Map lookup over an association list (a Go map read). -/
def lookupA {α : Type} : List (String × α) → String → Option α
  | [], _ => none
  | (k1, v) :: rest, k => if k1 = k then some v else lookupA rest k

/-- Map assignment over an association list (a Go map write): overwrite the
existing entry for the key, or append a new one. -/
def setKey {α : Type} : List (String × α) → String → α → List (String × α)
  | [], k, v => [(k, v)]
  | (k1, v1) :: rest, k, v =>
    if k1 = k then (k, v) :: rest else (k1, v1) :: setKey rest k v

/-! ## The data model -/

/-- A pages.Document as the site package observes it: its source path
(possibly empty), its URL (Permalink), and whether it is a pages.Page
(the type assertion d.(pages.Page) in Pages). The id field keeps distinct
documents with equal attributes distinguishable. -/
structure Document where
  id : Nat := 0
  source : String := ""
  url : String := ""
  isPage : Bool := false
deriving DecidableEq

/-- The parts of config.Config the site package reads or writes. -/
structure Config where
  AbsoluteURL : String := ""
  Variables : List (String × String) := []
  Include : List String := []
  Exclude : List String := []
  Plugins : List String := []
deriving DecidableEq

/-- The Site record: Routes (URL path to Document, output pages only), the
full document list, the configuration, the cached drop dictionary (none
until cached) and the renderer manager (none until successfully built;
managers are abstracted to handles). -/
structure Site where
  Routes : List (String × Document) := []
  Collections : List String := []
  docs : List Document := []
  config : Config := {}
  drop : Option (List (String × String)) := none
  renderer : Option Nat := none
deriving DecidableEq

/-! ## URLPage: the two copies in the repository -/

/-- URLPage as written in src/site/site.go lines 196-205: exact Routes
lookup, then the urlpath joined with index.html, then joined with
index.htm. -/
def URLPage (s : Site) (urlpath : String) : Option Document :=
  match lookupA s.Routes urlpath with
  | some p => some p
  | none =>
    match lookupA s.Routes (joinPath urlpath "index.html") with
    | some p => some p
    | none => lookupA s.Routes (joinPath urlpath "index.htm")

/-- URLPage as written in src/unnamed/part_000 lines 206-219: the same
chain followed by a fourth lookup of Join(urlpath + ".html"), serving the
extensionless URL /some-url from the file /some-url.html. -/
def URLPage_unnamed (s : Site) (urlpath : String) : Option Document :=
  match lookupA s.Routes urlpath with
  | some p => some p
  | none =>
    match lookupA s.Routes (joinPath urlpath "index.html") with
    | some p => some p
    | none =>
      match lookupA s.Routes (joinPath urlpath "index.htm") with
      | some p => some p
      | none => lookupA s.Routes (join1 (urlpath ++ ".html"))

/-- The document of the C1 scenario: served at /blog.html. -/
def blogDoc : Document := { id := 1, source := "blog.md", url := "/blog.html", isPage := true }

/-- A site whose Routes hold exactly the key /blog.html. -/
def blogSite : Site := { Routes := [("/blog.html", blogDoc)] }

/-- C1: the claim says URLPage falls back to the key urlpath + ".html" as a
fourth step, so that with Routes holding only /blog.html the query /blog is
found. The URLPage of src/site/site.go stops after the index.htm fallback
and reports not found at exactly that input, while the URLPage of the
second copy of the file, src/unnamed/part_000, returns the document, as the
claim states. The conjuncts record that none of the first three keys is
present, so the fourth step alone decides the outcome. -/
theorem URLPage_extensionless_divergence :
    URLPage blogSite "/blog" = none ∧
    URLPage_unnamed blogSite "/blog" = some blogDoc ∧
    lookupA blogSite.Routes "/blog" = none ∧
    lookupA blogSite.Routes (joinPath "/blog" "index.html") = none ∧
    lookupA blogSite.Routes (joinPath "/blog" "index.htm") = none ∧
    lookupA blogSite.Routes (join1 ("/blog" ++ ".html")) = some blogDoc := by
  refine ⟨rfl, rfl, rfl, rfl, rfl, rfl⟩

/-! ## Exclude: the layered exclusion policy (src/site/site.go lines 207-229)

A site-relative path is its component list; the root "." is `[]`. The walk
`siteRel = filepath.Dir(siteRel)` is the structural tail of the reversed
component list, so the loop is written over the reversed list: the head of
the reversed list is filepath.Base of the level, its tail reversed is
filepath.Dir of the level. -/

/-- The junk-file pattern, regexp `[#~]` or `\..` anchored at the start, or
`~` anchored at the end: leading hash or tilde, a hidden dot-file of at
least two characters, or a trailing tilde. -/
def excludeFileRE (s : String) : Bool :=
  (match s.data with
   | '#' :: _ => true
   | '~' :: _ => true
   | '.' :: _ :: _ => true
   | _ => false) ||
  (match s.data.getLast? with
   | some '~' => true
   | _ => false)

/-- Whether a basename starts with an underscore (Go: base[0] == '_'). -/
def underscoreFirst (s : String) : Bool :=
  match s.data with
  | '_' :: _ => true
  | _ => false

/-- The basename of a component list (filepath.Base of the level). -/
def lastComp (p : List String) : String := (p.getLast?).getD ""

/-- The loop body of Exclude over the REVERSED component list of the level:
`base :: rev` reversed is the level itself, `rev` reversed its parent.
The branches are the switch of src/site/site.go lines 212-227 in order:
include match, exclude match, nested underscore basename, junk basename,
else move to the parent. An empty list is the root "." and ends the loop
with false. -/
def excludeLoop (m : List String → List String → Bool)
    (inc exc : List String) : List String → Bool
  | [] => false
  | base :: rev =>
    if m inc ((base :: rev).reverse) then false
    else if m exc ((base :: rev).reverse) then true
    else if (!rev.isEmpty) && underscoreFirst base then true
    else if excludeFileRE base then true
    else excludeLoop m inc exc rev

/-- Exclude of src/site/site.go: walk the path from itself up to the root,
with the configured include and exclude pattern lists and the matcher m
standing for utils.MatchList. -/
def Exclude (m : List String → List String → Bool) (s : Site)
    (p : List String) : Bool :=
  excludeLoop m s.config.Include s.config.Exclude p.reverse

/-! ### The walk as the spec words it -/

/-- The per-level ruling of the walk, following the words of the spec:
some false when the include list matches the level, else some true when the
exclude list matches, else some true when the parent of the level is not
the root and the basename starts with an underscore, else some true when
the basename matches the junk-file pattern, else none (move to the
parent). -/
def levelRuling (m : List String → List String → Bool)
    (inc exc : List String) (level : List String) : Option Bool :=
  if m inc level then some false
  else if m exc level then some true
  else if (!level.dropLast.isEmpty) && underscoreFirst (lastComp level) then some true
  else if excludeFileRE (lastComp level) then some true
  else none

/-- The walk as the spec words it, over the reversed component list: apply
the per-level ruling, and move to the parent when it gives none; reaching
the root gives not-excluded. -/
def excludeLoopSpec (m : List String → List String → Bool)
    (inc exc : List String) : List String → Bool
  | [] => false
  | base :: rev =>
    match levelRuling m inc exc ((base :: rev).reverse) with
    | some b => b
    | none => excludeLoopSpec m inc exc rev

/-- The exclusion policy as the spec words it. -/
def ExcludeSpec (m : List String → List String → Bool) (s : Site)
    (p : List String) : Bool :=
  excludeLoopSpec m s.config.Include s.config.Exclude p.reverse

theorem reverse_cons_reverse_dropLast (base : String) (rev : List String) :
    ((base :: rev).reverse).dropLast = rev.reverse := by
  simp [List.reverse_cons, List.dropLast_concat]

theorem reverse_cons_lastComp (base : String) (rev : List String) :
    lastComp ((base :: rev).reverse) = base := by
  simp [lastComp, List.getLast?_reverse]

theorem isEmpty_reverse_eq (rev : List String) :
    rev.reverse.isEmpty = rev.isEmpty := by
  cases rev with
  | nil => rfl
  | cons a l =>
    cases hc : l.reverse ++ [a] with
    | nil => exact absurd hc (by simp)
    | cons b t => simp [List.isEmpty, hc]

theorem excludeLoop_eq_spec (m : List String → List String → Bool)
    (inc exc : List String) (r : List String) :
    excludeLoop m inc exc r = excludeLoopSpec m inc exc r := by
  induction r with
  | nil => rfl
  | cons base rev ih =>
    rw [excludeLoop, excludeLoopSpec, levelRuling,
        reverse_cons_reverse_dropLast, reverse_cons_lastComp,
        isEmpty_reverse_eq]
    split_ifs <;> simp [ih]

/-- C2: Exclude equals the walk from the path up to the root evaluating the
include, exclude, nested-underscore and junk rules in the stated precedence
at each level; a top-level underscore entry such as _posts is not excluded
when no pattern matches it, a nested one such as sub/_drafts is excluded,
and any path whose basename matches the junk-file pattern is excluded at
any depth as soon as the include list does not capture the path itself. -/
theorem Exclude_matches_spec_walk :
    (∀ (m : List String → List String → Bool) (s : Site) (p : List String),
      Exclude m s p = ExcludeSpec m s p) ∧
    (∀ (m : List String → List String → Bool) (s : Site),
      m s.config.Include ["_posts"] = false →
      m s.config.Exclude ["_posts"] = false →
      Exclude m s ["_posts"] = false) ∧
    (∀ (m : List String → List String → Bool) (s : Site),
      m s.config.Include ["sub", "_drafts"] = false →
      m s.config.Exclude ["sub", "_drafts"] = false →
      Exclude m s ["sub", "_drafts"] = true) ∧
    (∀ (m : List String → List String → Bool) (s : Site) (p : List String),
      p ≠ [] →
      m s.config.Include p = false →
      excludeFileRE (lastComp p) = true →
      Exclude m s p = true) := by
  refine ⟨?_, ?_, ?_, ?_⟩
  · intro m s p
    exact excludeLoop_eq_spec m s.config.Include s.config.Exclude p.reverse
  · intro m s h1 h2
    simp [Exclude, excludeLoop, h1, h2, underscoreFirst, excludeFileRE]
  · intro m s h1 h2
    simp [Exclude, excludeLoop, h1, h2, underscoreFirst]
  · intro m s p hp h1 h2
    obtain ⟨base, rev, hr⟩ : ∃ base rev, p.reverse = base :: rev := by
      cases hrev : p.reverse with
      | nil => exact absurd (by simpa using hrev) hp
      | cons a l => exact ⟨a, l, rfl⟩
    have hbase : base = lastComp p := by
      have := reverse_cons_lastComp base rev
      rw [← hr, List.reverse_reverse] at this
      exact this.symm
    have hlevel : (base :: rev).reverse = p := by
      rw [← hr, List.reverse_reverse]
    rw [Exclude, hr, excludeLoop, hlevel, h1]
    rw [hbase] at *
    by_cases h2' : m s.config.Exclude p = true
    · simp [h2']
    · by_cases h3 : ((!rev.isEmpty) && underscoreFirst (lastComp p)) = true
      · simp [h2', h3]
      · simp [h2', h3, h2]

/-- Witness for C2 at concrete inputs: with a matcher that never matches,
_posts is kept, sub/_drafts is excluded, and the junk path sub/.git is
excluded. -/
theorem Exclude_matches_spec_walk_witness :
    Exclude (fun _ _ => false) {} ["_posts"] = false ∧
    Exclude (fun _ _ => false) {} ["sub", "_drafts"] = true ∧
    Exclude (fun _ _ => false) {} ["sub", ".git"] = true := by
  refine ⟨Exclude_matches_spec_walk.2.1 (fun _ _ => false) {} rfl rfl,
          Exclude_matches_spec_walk.2.2.1 (fun _ _ => false) {} rfl rfl,
          Exclude_matches_spec_walk.2.2.2 (fun _ _ => false) {}
            ["sub", ".git"] (by simp) rfl (by rfl)⟩

/-- C3: a path that the include list matches is never excluded, whatever
the exclude list also matches: the include test is the first rule of the
walk at the level of the path itself. -/
theorem Exclude_include_wins :
    ∀ (m : List String → List String → Bool) (s : Site) (p : List String),
      m s.config.Include p = true →
      m s.config.Exclude p = true →
      Exclude m s p = false := by
  intro m s p h1 _h2
  cases hrev : p.reverse with
  | nil => simp [Exclude, hrev, excludeLoop]
  | cons base rev =>
    have hlevel : (base :: rev).reverse = p := by
      rw [← hrev, List.reverse_reverse]
    rw [Exclude, hrev, excludeLoop, hlevel, h1]
    simp

/-- Witness for C3: a matcher that matches everything, so the path matches
both pattern lists, and the path is kept. -/
theorem Exclude_include_wins_witness :
    Exclude (fun _ _ => true) {} ["vendor", "cache"] = false :=
  Exclude_include_wins (fun _ _ => true) {} ["vendor", "cache"] rfl rfl

/-- C10: the root path "." (the empty component list) is never excluded:
the walk runs only while the examined path differs from the root, so no
rule is ever evaluated against the root itself, for every matcher and every
configuration. -/
theorem Exclude_root_never_excluded :
    ∀ (m : List String → List String → Bool) (s : Site),
      Exclude m s [] = false := by
  intro m s
  rfl

/-! ## FilePathPage, FilenameURLPath, FilenameURLs
(src/site/site.go lines 119-154) -/

/-- The scan of FilePathPage over the Routes entries: skip documents with
an empty source path; for the others, when the relativization succeeds and
the result equals the queried path, return the document. `rel` stands for
filepath.Rel of the source directory applied to the document source path
(none when Rel reports an error). -/
def filePathScan (rel : Document → Option String) :
    List (String × Document) → String → Option Document
  | [], _ => none
  | (_, p) :: rest, q =>
    if p.source ≠ "" then
      match rel p with
      | some r => if r = q then some p else filePathScan rel rest q
      | none => filePathScan rel rest q
    else filePathScan rel rest q

/-- FilePathPage of src/site/site.go: the scan over s.Routes. -/
def FilePathPage (rel : Document → Option String) (s : Site)
    (q : String) : Option Document :=
  filePathScan rel s.Routes q

/-- FilenameURLPath of src/site/site.go: the URL of the document that
FilePathPage finds, or the empty string with found = false. -/
def FilenameURLPath (rel : Document → Option String) (s : Site)
    (q : String) : String × Bool :=
  match FilePathPage rel s q with
  | some p => (p.url, true)
  | none => ("", false)

/-- Pages of src/site/site.go: the documents of the full docs list that are
pages (the type assertion d.(pages.Page)). -/
def sitePages (s : Site) : List Document :=
  s.docs.filter (fun d => d.isPage)

/-- The loop of FilenameURLs over the page list, building the Go map with
map assignment; MustRel panicking (rel giving none) makes the whole call a
panic, embedded as none. -/
def filenameURLsAux (rel : Document → Option String) :
    List Document → List (String × String) → Option (List (String × String))
  | [], urls => some urls
  | pg :: rest, urls =>
    match rel pg with
    | none => none
    | some r => filenameURLsAux rel rest (setKey urls r pg.url)

/-- FilenameURLs of src/site/site.go: a map from the source-relative path
of every page of s.Pages() to the URL of that page. -/
def FilenameURLs (rel : Document → Option String) (s : Site) :
    Option (List (String × String)) :=
  filenameURLsAux rel (sitePages s) []

/-- The URL of the last page of the list whose relativized source path is
the key: the reference value of a FilenameURLs entry, since later map
assignments overwrite earlier ones. -/
def lastURL (rel : Document → Option String) :
    List Document → String → Option String
  | [], _ => none
  | pg :: rest, k =>
    match lastURL rel rest k with
    | some u => some u
    | none => if rel pg = some k then some pg.url else none

theorem lookupA_setKey_same {α : Type} (l : List (String × α)) (k : String)
    (v : α) : lookupA (setKey l k v) k = some v := by
  induction l with
  | nil => simp [setKey, lookupA]
  | cons kv rest ih =>
    obtain ⟨k1, v1⟩ := kv
    by_cases h : k1 = k
    · simp [setKey, h, lookupA]
    · simp [setKey, h, lookupA, ih]

theorem lookupA_setKey_other {α : Type} (l : List (String × α))
    (k k' : String) (v : α) (h : k' ≠ k) :
    lookupA (setKey l k v) k' = lookupA l k' := by
  have hkk : ¬ k = k' := fun hh => h hh.symm
  induction l with
  | nil => simp [setKey, lookupA, hkk]
  | cons kv rest ih =>
    obtain ⟨k1, v1⟩ := kv
    by_cases h1 : k1 = k
    · subst h1
      simp [setKey, lookupA, hkk]
    · simp [setKey, h1, lookupA, ih]

theorem filenameURLsAux_lookup (rel : Document → Option String)
    (pgs : List Document) :
    ∀ (acc mp : List (String × String)) (k : String),
      filenameURLsAux rel pgs acc = some mp →
      lookupA mp k = (match lastURL rel pgs k with
        | some u => some u
        | none => lookupA acc k) := by
  induction pgs with
  | nil =>
    intro acc mp k h
    simp [filenameURLsAux] at h
    subst h
    simp [lastURL]
  | cons pg rest ih =>
    intro acc mp k h
    rw [filenameURLsAux] at h
    cases hr : rel pg with
    | none => rw [hr] at h; exact absurd h (by simp)
    | some r =>
      rw [hr] at h
      have hmain := ih (setKey acc r pg.url) mp k h
      rw [lastURL]
      cases hl : lastURL rel rest k with
      | some u => rw [hl] at hmain; simpa using hmain
      | none =>
        rw [hl] at hmain
        by_cases hk : r = k
        · subst hk
          rw [lookupA_setKey_same] at hmain
          simp at hmain
          simp [hmain, hr]
        · rw [lookupA_setKey_other acc r k pg.url (fun hh => hk hh.symm)] at hmain
          have hne : ¬ rel pg = some k := by
            rw [hr]; intro hh; exact hk (by injection hh)
          simp at hmain
          simp [hmain, hne]

theorem filePathScan_source_ne (rel : Document → Option String)
    (q : String) (d : Document) :
    ∀ routes : List (String × Document),
      filePathScan rel routes q = some d → d.source ≠ "" := by
  intro routes
  induction routes with
  | nil => intro h; exact absurd h (by simp [filePathScan])
  | cons kv rest ih =>
    obtain ⟨k1, p⟩ := kv
    intro h
    by_cases hs : p.source ≠ ""
    · cases hr : rel p with
      | none =>
        simp only [filePathScan, if_pos hs, hr] at h
        exact ih h
      | some r =>
        by_cases hq : r = q
        · simp only [filePathScan, if_pos hs, hr, if_pos hq] at h
          injection h with h
          subst h
          exact hs
        · simp only [filePathScan, if_pos hs, hr, if_neg hq] at h
          exact ih h
    · simp only [filePathScan, if_neg hs] at h
      exact ih h

theorem filePathScan_unique (rel : Document → Option String)
    (k q : String) (d : Document) :
    ∀ routes : List (String × Document),
      (k, d) ∈ routes → d.source ≠ "" → rel d = some q →
      (∀ k' d', (k', d') ∈ routes → d'.source ≠ "" → rel d' = some q →
        d' = d) →
      filePathScan rel routes q = some d := by
  intro routes
  induction routes with
  | nil => intro hmem _ _ _; exact absurd hmem (by simp)
  | cons kv rest ih =>
    obtain ⟨k1, p⟩ := kv
    intro hmem hsrc hrel huniq
    by_cases hs : p.source ≠ ""
    · cases hr : rel p with
      | none =>
        have hpd : p ≠ d := by
          intro hh; rw [hh, hrel] at hr; exact absurd hr (by simp)
        have hmem' : (k, d) ∈ rest := by
          rcases List.mem_cons.mp hmem with h | h
          · exact absurd h (by
              intro hh
              exact hpd (congrArg Prod.snd hh).symm)
          · exact h
        simp only [filePathScan, if_pos hs, hr]
        exact ih hmem' hsrc hrel
          (fun k' d' hm => huniq k' d' (List.mem_cons_of_mem _ hm))
      | some r =>
        by_cases hq : r = q
        · have hpd : p = d := huniq k1 p (List.mem_cons_self _ _) hs
            (by rw [hr, hq])
          simp only [filePathScan, if_pos hs, hr, if_pos hq]
          exact congrArg some hpd
        · have hpd : p ≠ d := by
            intro hh; rw [hh, hrel] at hr
            injection hr with hr
            exact hq hr.symm
          have hmem' : (k, d) ∈ rest := by
            rcases List.mem_cons.mp hmem with h | h
            · exact absurd h (by
                intro hh
                exact hpd (congrArg Prod.snd hh).symm)
            · exact h
          simp only [filePathScan, if_pos hs, hr, if_neg hq]
          exact ih hmem' hsrc hrel
            (fun k' d' hm => huniq k' d' (List.mem_cons_of_mem _ hm))
    · have hpd : p ≠ d := by
        intro hh; rw [hh] at hs; exact hs hsrc
      have hmem' : (k, d) ∈ rest := by
        rcases List.mem_cons.mp hmem with h | h
        · exact absurd h (by
            intro hh
            exact hpd (congrArg Prod.snd hh).symm)
        · exact h
      simp only [filePathScan, if_neg hs]
      exact ih hmem' hsrc hrel
        (fun k' d' hm => huniq k' d' (List.mem_cons_of_mem _ hm))

/-- C4: only documents with a non-empty source path participate in the
FilePathPage scan, and the scan round-trips: a document of Routes with a
non-empty source path whose relativized source path is q, unique among the
Routes documents with that relativized path, is what FilePathPage returns
at q. -/
theorem FilePathPage_roundtrip :
    (∀ (rel : Document → Option String) (s : Site) (q : String)
       (d : Document), FilePathPage rel s q = some d → d.source ≠ "") ∧
    (∀ (rel : Document → Option String) (s : Site) (k q : String)
       (d : Document),
      (k, d) ∈ s.Routes → d.source ≠ "" → rel d = some q →
      (∀ k' d', (k', d') ∈ s.Routes → d'.source ≠ "" → rel d' = some q →
        d' = d) →
      FilePathPage rel s q = some d) := by
  constructor
  · intro rel s q d h
    exact filePathScan_source_ne rel q d s.Routes h
  · intro rel s k q d hmem hsrc hrel huniq
    exact filePathScan_unique rel k q d s.Routes hmem hsrc hrel huniq

/-- Witness for C4: a one-route site, relativization by the source field,
round-trips its document. -/
theorem FilePathPage_roundtrip_witness :
    FilePathPage (fun d => some d.source)
      { Routes := [("/a/", { id := 7, source := "a.md", url := "/a/", isPage := true })] }
      "a.md" = some { id := 7, source := "a.md", url := "/a/", isPage := true } := by
  refine FilePathPage_roundtrip.2 (fun d => some d.source) _ "/a/" "a.md"
    { id := 7, source := "a.md", url := "/a/", isPage := true }
    (by simp) (by simp) rfl ?_
  intro k' d' hm _ _
  simp at hm
  exact hm.2

/-- C5 (amended): FilenameURLPath is the exact composition of FilePathPage
with URL extraction: it returns (u, true) exactly when FilePathPage finds a
document whose URL is u, and ("", false) exactly when FilePathPage finds
nothing. FilenameURLs, by contrast, is built by scanning the site Pages
list (every document of the full docs list that is a page, output or not),
not the Routes table: when no MustRel call fails, an entry of the map holds
value u at key k exactly when the last page of the Pages list whose
relativized source path is k has URL u. -/
theorem FilenameURL_compositions :
    (∀ (rel : Document → Option String) (s : Site) (q u : String),
      FilenameURLPath rel s q = (u, true) ↔
        (∃ d, FilePathPage rel s q = some d ∧ d.url = u)) ∧
    (∀ (rel : Document → Option String) (s : Site) (q : String),
      FilenameURLPath rel s q = ("", false) ↔ FilePathPage rel s q = none) ∧
    (∀ (rel : Document → Option String) (s : Site)
       (mp : List (String × String)) (k : String),
      FilenameURLs rel s = some mp →
      lookupA mp k = lastURL rel (sitePages s) k) := by
  refine ⟨?_, ?_, ?_⟩
  · intro rel s q u
    rw [FilenameURLPath]
    cases h : FilePathPage rel s q with
    | none =>
      simp only [h]
      constructor
      · intro hh
        exact absurd (congrArg Prod.snd hh) (by simp)
      · intro ⟨d, hd, _⟩
        exact absurd hd (by simp)
    | some d =>
      simp only [h]
      constructor
      · intro hh
        exact ⟨d, rfl, congrArg Prod.fst hh⟩
      · intro ⟨d', hd, hu⟩
        injection hd with hd
        rw [← hd] at hu
        rw [hu]
  · intro rel s q
    rw [FilenameURLPath]
    cases h : FilePathPage rel s q with
    | none => simp [h]
    | some d => simp [h]
  · intro rel s mp k h
    have := filenameURLsAux_lookup rel (sitePages s) [] mp k h
    rw [this]
    cases lastURL rel (sitePages s) k with
    | none => rfl
    | some u => rfl

/-- The output page of the C5 witness site. -/
def aDoc : Document := { id := 7, source := "a.md", url := "/a/", isPage := true }

/-- A site holding aDoc both as an output route and in the docs list. -/
def aSite : Site := { Routes := [("/a/", aDoc)], docs := [aDoc] }

/-- Witness for C5 at a concrete input: on a site with one output route,
FilenameURLPath composes FilePathPage, and the FilenameURLs entry carries
the URL of the last page with that source path. -/
theorem FilenameURL_compositions_witness :
    (FilenameURLPath (fun d => some d.source) aSite "a.md" = ("/a/", true) ↔
      (∃ d, FilePathPage (fun d => some d.source) aSite "a.md" = some d ∧
        d.url = "/a/")) ∧
    lookupA [("a.md", "/a/")] "a.md" =
      lastURL (fun d => some d.source) (sitePages aSite) "a.md" := by
  constructor
  · exact FilenameURL_compositions.1 (fun d => some d.source) aSite "a.md" "/a/"
  · exact FilenameURL_compositions.2.2 (fun d => some d.source) aSite
      [("a.md", "/a/")] "a.md" rfl

/-- The page of the C5 counterexample: a page of the docs list that is not
an output page, so it has no Routes entry. -/
def draftDoc : Document := { id := 2, source := "draft.md", url := "/draft/", isPage := true }

/-- A site whose docs list holds draftDoc while Routes is empty. -/
def draftSite : Site := { docs := [draftDoc] }

/-- C5 counterexample: the claim says the FilenameURLs map holds key k with
value u exactly when FilenameURLPath(k) = (u, true). On a site holding a
non-output page, FilenameURLs (which scans the full Pages list) maps the
page source path to its URL while FilenameURLPath (which scans Routes)
reports not found at that very key, so the two sides of the claimed
equivalence disagree at k = "draft.md", u = "/draft/". -/
theorem FilenameURLs_population_cex :
    FilenameURLs (fun d => some d.source) draftSite = some [("draft.md", "/draft/")] ∧
    lookupA [("draft.md", "/draft/")] "draft.md" = some "/draft/" ∧
    FilenameURLPath (fun d => some d.source) draftSite "draft.md" = ("", false) ∧
    ("", false) ≠ ("/draft/", true) := by
  refine ⟨rfl, rfl, rfl, by simp⟩

/-! ## RendererManager (src/site/site.go lines 156-162) -/

/-- RendererManager: with no renderer built yet the call panics with the
error "uninitialized rendering manager" (embedded as the error branch of
Except); with a built renderer it returns it. -/
def RendererManager (s : Site) : Except String Nat :=
  match s.renderer with
  | none => Except.error "uninitialized rendering manager"
  | some r => Except.ok r

/-- C7: calling RendererManager on a site whose renderer is still nil is a
fatal error: the call panics with the error "uninitialized rendering
manager" instead of returning a value; once the renderer is present the
call returns it without panicking. -/
theorem RendererManager_nil_is_fatal :
    (∀ s : Site, s.renderer = none →
      RendererManager s = Except.error "uninitialized rendering manager") ∧
    (∀ (s : Site) (r : Nat), s.renderer = some r →
      RendererManager s = Except.ok r) := by
  constructor
  · intro s h
    rw [RendererManager, h]
  · intro s r h
    rw [RendererManager, h]

/-- Witness for C7: a site with no renderer panics, a site with renderer
handle 5 returns it. -/
theorem RendererManager_nil_is_fatal_witness :
    RendererManager {} = Except.error "uninitialized rendering manager" ∧
    RendererManager { renderer := some 5 } = Except.ok 5 :=
  ⟨RendererManager_nil_is_fatal.1 {} rfl,
   RendererManager_nil_is_fatal.2 { renderer := some 5 } 5 rfl⟩

/-! ## SetAbsoluteURL (src/site/site.go lines 109-117) -/

/-- SetAbsoluteURL: set the configuration AbsoluteURL, set the "url" entry
of the configuration Variables, and, when the drop dictionary has been
cached, set its "url" entry too. -/
def SetAbsoluteURL (s : Site) (url : String) : Site :=
  { s with
    config := { s.config with
      AbsoluteURL := url,
      Variables := setKey s.config.Variables "url" url }
    drop := match s.drop with
      | some d => some (setKey d "url" url)
      | none => none }

/-- C8: SetAbsoluteURL sets the configuration absolute-URL value and the
"url" template variable, updates the cached drop dictionary entry "url"
exactly when the dictionary is cached, leaves every other drop entry and
every other variable unchanged, and leaves Routes, Collections, the
document list and the renderer untouched. -/
theorem SetAbsoluteURL_frame :
    ∀ (s : Site) (url : String),
      (SetAbsoluteURL s url).config.AbsoluteURL = url ∧
      lookupA (SetAbsoluteURL s url).config.Variables "url" = some url ∧
      (∀ k, k ≠ "url" →
        lookupA (SetAbsoluteURL s url).config.Variables k =
          lookupA s.config.Variables k) ∧
      (s.drop = none → (SetAbsoluteURL s url).drop = none) ∧
      (∀ d, s.drop = some d →
        ∃ d2, (SetAbsoluteURL s url).drop = some d2 ∧
          lookupA d2 "url" = some url ∧
          ∀ k, k ≠ "url" → lookupA d2 k = lookupA d k) ∧
      (SetAbsoluteURL s url).Routes = s.Routes ∧
      (SetAbsoluteURL s url).Collections = s.Collections ∧
      (SetAbsoluteURL s url).docs = s.docs ∧
      (SetAbsoluteURL s url).renderer = s.renderer := by
  intro s url
  refine ⟨rfl, ?_, ?_, ?_, ?_, rfl, rfl, rfl, rfl⟩
  · rw [SetAbsoluteURL]
    exact lookupA_setKey_same s.config.Variables "url" url
  · intro k hk
    rw [SetAbsoluteURL]
    exact lookupA_setKey_other s.config.Variables "url" k url hk
  · intro h
    rw [SetAbsoluteURL, h]
  · intro d h
    refine ⟨setKey d "url" url, ?_, lookupA_setKey_same d "url" url,
            fun k hk => lookupA_setKey_other d "url" k url hk⟩
    rw [SetAbsoluteURL, h]

/-- Witness for C8 at a concrete site with a cached drop dictionary: the
"url" entry is rewritten and the other entry is kept. -/
theorem SetAbsoluteURL_frame_witness :
    ∃ d2, (SetAbsoluteURL { drop := some [("url", "old"), ("time", "t1")] }
        "https://example.com").drop = some d2 ∧
      lookupA d2 "url" = some "https://example.com" ∧
      ∀ k, k ≠ "url" →
        lookupA d2 k = lookupA [("url", "old"), ("time", "t1")] k :=
  (SetAbsoluteURL_frame { drop := some [("url", "old"), ("time", "t1")] }
    "https://example.com").2.2.2.2.1 [("url", "old"), ("time", "t1")] rfl

/-! ## runHooks (src/site/site.go lines 82-92) -/

/-- runHooks: walk the configured plugin names in order; a name the
registry resolves has the callback invoked on its plugin, a name it does
not resolve is skipped; the first error an invocation returns is returned
at once, and nil (none) is returned when no invocation errs. `lookup`
stands for plugins.Lookup over the process-wide registry; the callback
returns some error or none. -/
def runHooksList {P E : Type} (lookup : String → Option P)
    (h : P → Option E) : List String → Option E
  | [] => none
  | n :: ns =>
    match lookup n with
    | some p =>
      match h p with
      | some e => some e
      | none => runHooksList lookup h ns
    | none => runHooksList lookup h ns

/-- The plugins the dispatch of runHooks invokes the callback on, in
order. -/
def runHooksInvokedList {P E : Type} (lookup : String → Option P)
    (h : P → Option E) : List String → List P
  | [] => []
  | n :: ns =>
    match lookup n with
    | some p =>
      match h p with
      | some _ => [p]
      | none => p :: runHooksInvokedList lookup h ns
    | none => runHooksInvokedList lookup h ns

/-- The first error the callback returns over a plugin list. -/
def firstHookErr {P E : Type} (h : P → Option E) : List P → Option E
  | [] => none
  | p :: ps =>
    match h p with
    | some e => some e
    | none => firstHookErr h ps

/-- A plugin list cut after its first failing plugin. -/
def throughFirstFailure {P E : Type} (h : P → Option E) :
    List P → List P
  | [] => []
  | p :: ps =>
    match h p with
    | some _ => [p]
    | none => p :: throughFirstFailure h ps

/-- runHooks of the Site: the walk over the configured plugin names. -/
def runHooks {P E : Type} (lookup : String → Option P)
    (h : P → Option E) (s : Site) : Option E :=
  runHooksList lookup h s.config.Plugins

/-- The plugins a Site dispatch invokes. -/
def runHooksInvoked {P E : Type} (lookup : String → Option P)
    (h : P → Option E) (s : Site) : List P :=
  runHooksInvokedList lookup h s.config.Plugins

theorem firstHookErr_none {P E : Type} (h : P → Option E) :
    ∀ rs : List P, (∀ p ∈ rs, h p = none) → firstHookErr h rs = none := by
  intro rs
  induction rs with
  | nil => intro _; rfl
  | cons p ps ih =>
    intro hall
    rw [firstHookErr, hall p (List.mem_cons_self _ _)]
    exact ih (fun p2 hm => hall p2 (List.mem_cons_of_mem _ hm))

theorem runHooksList_eq_firstErr {P E : Type} (lookup : String → Option P)
    (h : P → Option E) (ns : List String) :
    runHooksList lookup h ns = firstHookErr h (ns.filterMap lookup) := by
  induction ns with
  | nil => rfl
  | cons n rest ih =>
    cases hl : lookup n with
    | none => simp [runHooksList, hl, List.filterMap_cons, ih]
    | some p =>
      cases hp : h p with
      | some e => simp [runHooksList, hl, hp, List.filterMap_cons, firstHookErr]
      | none => simp [runHooksList, hl, hp, List.filterMap_cons, firstHookErr, ih]

theorem runHooksInvokedList_eq {P E : Type} (lookup : String → Option P)
    (h : P → Option E) (ns : List String) :
    runHooksInvokedList lookup h ns =
      throughFirstFailure h (ns.filterMap lookup) := by
  induction ns with
  | nil => rfl
  | cons n rest ih =>
    cases hl : lookup n with
    | none => simp [runHooksInvokedList, hl, List.filterMap_cons, ih]
    | some p =>
      cases hp : h p with
      | some e =>
        simp [runHooksInvokedList, hl, hp, List.filterMap_cons, throughFirstFailure]
      | none =>
        simp [runHooksInvokedList, hl, hp, List.filterMap_cons, throughFirstFailure, ih]

/-- C9: runHooks visits the configured plugin names in order; unresolved
names are silently skipped, so the dispatch acts on exactly the resolved
plugins in configured order; it returns the first error an invoked
callback produces (none when no invoked callback errs), and the plugins it
invokes the callback on are exactly the resolved ones through the first
failing plugin, so no plugin after the failing one is invoked. -/
theorem runHooks_dispatch :
    (∀ {P E : Type} (lookup : String → Option P) (h : P → Option E)
       (s : Site),
      runHooks lookup h s =
        firstHookErr h (s.config.Plugins.filterMap lookup)) ∧
    (∀ {P E : Type} (lookup : String → Option P) (h : P → Option E)
       (s : Site),
      runHooksInvoked lookup h s =
        throughFirstFailure h (s.config.Plugins.filterMap lookup)) ∧
    (∀ {P E : Type} (lookup : String → Option P) (h : P → Option E)
       (s : Site),
      (∀ p ∈ s.config.Plugins.filterMap lookup, h p = none) →
      runHooks lookup h s = none) := by
  refine ⟨?_, ?_, ?_⟩
  · intro P E lookup h s
    exact runHooksList_eq_firstErr lookup h s.config.Plugins
  · intro P E lookup h s
    exact runHooksInvokedList_eq lookup h s.config.Plugins
  · intro P E lookup h s hall
    rw [runHooks, runHooksList_eq_firstErr]
    exact firstHookErr_none h (s.config.Plugins.filterMap lookup) hall

/-- Witness for C9: two configured names, the registry resolving only the
first, the callback never erring; the dispatch returns nil. -/
theorem runHooks_dispatch_witness :
    runHooks (fun n => if n = "jekyll-feed" then some 1 else none)
      (fun (_ : Nat) => (none : Option String))
      { config := { Plugins := ["jekyll-feed", "jekyll-seo"] } } = none := by
  refine runHooks_dispatch.2.2
    (fun n => if n = "jekyll-feed" then some 1 else none)
    (fun (_ : Nat) => (none : Option String))
    { config := { Plugins := ["jekyll-feed", "jekyll-seo"] } } ?_
  intro p _
  rfl

end Gojekyll
